import Mathlib

/-!
Verification development for the File-work_logger repository
(src/File-work_logger.py).  The Python source is shallowly embedded:
pure string/date manipulation becomes Lean functions over `List Char`
based strings, SQLite tables become lists of records, the watchdog
observer becomes an explicit state record, and fallible operations
return `Option`/`Except`.
-/

namespace FWL

/-! ### Python string primitives

All string operations are implemented structurally over `String.data`
(a `List Char`) so that concrete instances evaluate inside the kernel.
-/

/-- Characters treated as whitespace by Python `str.strip()` / `str.split()`
(the ASCII subset; the repository never feeds exotic Unicode spaces). -/
def pyWs (c : Char) : Bool :=
  c = ' ' || c = '\t' || c = '\n' || c = '\r' || c = '\x0b' || c = '\x0c'

/-- Python `str.strip()` on a character list. -/
def stripChars (l : List Char) : List Char :=
  ((l.dropWhile pyWs).reverse.dropWhile pyWs).reverse

/-- Python `str.strip()`. -/
def pyStrip (s : String) : String := ⟨stripChars s.data⟩

/-- Python `str.lower()` on one character.  Python lowercases the full
Unicode range, but the repository only ever lowercases ASCII extensions
and synonym keys (Korean is unaffected by `lower` in both settings), so
the ASCII mapping is a faithful model. -/
def charLower (c : Char) : Char :=
  if 65 ≤ c.toNat ∧ c.toNat ≤ 90 then Char.ofNat (c.toNat + 32) else c

/-- Python `str.lower()`. -/
def pyLower (s : String) : String := ⟨s.data.map charLower⟩

/-- Is `needle` a contiguous infix of `hay`? -/
def listInfix (needle : List Char) : List Char → Bool
  | [] => needle.isEmpty
  | c :: t => needle.isPrefixOf (c :: t) || listInfix needle t

/-- Python substring test `needle in hay`. -/
def strContains (hay needle : String) : Bool := listInfix needle.data hay.data

/-- Python slice `s[:n]`. -/
def pyTake (s : String) (n : Nat) : String := ⟨s.data.take n⟩

/-- Python `s.replace(a, b)` for single characters `a`, `b`. -/
def replChar (a b : Char) (s : String) : String :=
  ⟨s.data.map (fun c => if c = a then b else c)⟩

/-- Python `t.replace(' ', '')` (the source removes only the space character). -/
def removeSpaces (s : String) : String := ⟨s.data.filter (fun c => c ≠ ' ')⟩

/-- Does the token start with a dot (Python `tok.startswith('.')`)? -/
def startsDot (t : String) : Bool :=
  match t.data with
  | '.' :: _ => true
  | _ => false

/-- Split a character list at every occurrence of `sep`. -/
def splitCh (sep : Char) : List Char → List Char → List String
  | [], acc => [⟨acc.reverse⟩]
  | c :: rest, acc =>
    if c = sep then ⟨acc.reverse⟩ :: splitCh sep rest []
    else splitCh sep rest (c :: acc)

/-- Python `str.split()` with no argument: tokens separated by runs of
whitespace, with no empty tokens. -/
def pyWords (s : String) : List String :=
  ((s.data.splitOnP pyWs).map fun l => (⟨l⟩ : String)).filter (fun t => t != "")

/-- Split on the literal separator `"\n\n"`, scanning left to right
(Python `text.split("\n\n")`). -/
def splitNNAux : List Char → List Char → List String
  | [], acc => [⟨acc.reverse⟩]
  | '\n' :: '\n' :: rest, acc => ⟨acc.reverse⟩ :: splitNNAux rest []
  | c :: rest, acc => splitNNAux rest (c :: acc)

/-- Python `str.splitlines()`: splits on `\r\n`, `\r` and `\n`, with no
trailing empty line. -/
def splitLinesAux : List Char → List Char → List String
  | [], acc => if acc.isEmpty then [] else [⟨acc.reverse⟩]
  | '\r' :: '\n' :: rest, acc => ⟨acc.reverse⟩ :: splitLinesAux rest []
  | '\n' :: rest, acc => ⟨acc.reverse⟩ :: splitLinesAux rest []
  | '\r' :: rest, acc => ⟨acc.reverse⟩ :: splitLinesAux rest []
  | c :: rest, acc => splitLinesAux rest (c :: acc)

/-- Python `str.splitlines()`. -/
def pySplitlines (s : String) : List String := splitLinesAux s.data []

/-- Python `t.split(sep, 1)` restricted to a one-character separator:
the part before the first occurrence and the remainder.  The callers in
the source only use it after checking `sep in t`; when the separator is
absent the second component is empty. -/
def splitFirstAux (sep : Char) : List Char → List Char → List Char × List Char
  | [], acc => (acc.reverse, [])
  | c :: rest, acc =>
    if c = sep then (acc.reverse, rest) else splitFirstAux sep rest (c :: acc)

/-- Python `sep.join(parts)`. -/
def joinWith (sep : String) : List String → String
  | [] => ""
  | [x] => x
  | x :: xs => x ++ sep ++ joinWith sep xs

/-- Is the character an ASCII decimal digit? -/
def isDigitCh (c : Char) : Bool := 48 ≤ c.toNat && c.toNat ≤ 57

/-- Numeric value of an ASCII digit. -/
def digitVal (c : Char) : Nat := c.toNat - 48

/-- Character at index `i` of the string (space when out of range; the
source only indexes after a length guard). -/
def charAtD (s : String) (i : Nat) : Char := s.data.getD i ' '

/-! ### The proleptic Gregorian calendar (Python `datetime`)

`PyDateTime` models `datetime.datetime` as a day number since
1970-01-01 plus the time-of-day fields.  Civil (year, month, day)
conversions use the standard Gregorian-calendar algorithms; `/` and `%`
on `Int` are Euclidean (floor for the positive divisors used here).
-/

/-- Gregorian leap year. -/
def isLeap (y : Int) : Bool := y % 4 == 0 && (y % 100 != 0 || y % 400 == 0)

/-- Number of days in a month. -/
def daysInMonth (y : Int) (m : Nat) : Nat :=
  if m = 2 then (if isLeap y then 29 else 28)
  else if m = 4 ∨ m = 6 ∨ m = 9 ∨ m = 11 then 30
  else 31

/-- Day number since 1970-01-01 of a civil date. -/
def daysFromCivil (y : Int) (m d : Nat) : Int :=
  let y2 : Int := if m ≤ 2 then y - 1 else y
  let era : Int := y2 / 400
  let yoe : Nat := (y2 - era * 400).toNat
  let mp : Nat := if 3 ≤ m then m - 3 else m + 9
  let doy : Nat := (153 * mp + 2) / 5 + d - 1
  let doe : Nat := yoe * 365 + yoe / 4 - yoe / 100 + doy
  era * 146097 + (doe : Int) - 719468

/-- Civil date (year, month, day) of a day number since 1970-01-01. -/
def civilFromDays (z : Int) : Int × Nat × Nat :=
  let z2 : Int := z + 719468
  let era : Int := z2 / 146097
  let doe : Nat := (z2 - era * 146097).toNat
  let yoe : Nat := (doe - doe / 1460 + doe / 36524 - doe / 146096) / 365
  let y : Int := (yoe : Int) + era * 400
  let doy : Nat := doe - (365 * yoe + yoe / 4 - yoe / 100)
  let mp : Nat := (5 * doy + 2) / 153
  let d : Nat := doy - (153 * mp + 2) / 5 + 1
  let m : Nat := if mp < 10 then mp + 3 else mp - 9
  (if m ≤ 2 then y + 1 else y, m, d)

/-- Model of Python `datetime.datetime`: days since 1970-01-01 plus
time-of-day fields. -/
structure PyDateTime where
  days : Int
  hour : Nat
  minute : Nat
  second : Nat
  microsecond : Nat
deriving DecidableEq

/-- Python `dt + timedelta(days := n)` (time of day unchanged). -/
def addDays (d : PyDateTime) (n : Int) : PyDateTime := { d with days := d.days + n }

/-- Seconds elapsed since midnight. -/
def secOfDay (d : PyDateTime) : Int := d.hour * 3600 + d.minute * 60 + d.second

/-- Python `dt + timedelta(seconds := k)` (microseconds unchanged). -/
def addSeconds (d : PyDateTime) (k : Int) : PyDateTime :=
  let tot : Int := d.days * 86400 + secOfDay d + k
  let rem : Nat := (tot % 86400).toNat
  { days := tot / 86400, hour := rem / 3600, minute := rem % 3600 / 60,
    second := rem % 60, microsecond := d.microsecond }

/-- Python `dt.weekday()`: Monday = 0 … Sunday = 6 (1970-01-01 was a
Thursday). -/
def weekday (d : PyDateTime) : Nat := ((d.days + 3) % 7).toNat

/-- Python `dt.replace(hour := 0, minute := 0, second := 0, microsecond := 0)`. -/
def dayStart (d : PyDateTime) : PyDateTime :=
  { days := d.days, hour := 0, minute := 0, second := 0, microsecond := 0 }

/-- Python `dt.replace(day := 1)` (time of day unchanged; day 1 is valid
in every month, so no validation is needed). -/
def replaceDay1 (d : PyDateTime) : PyDateTime :=
  let c := civilFromDays d.days
  { d with days := daysFromCivil c.1 c.2.1 1 }

/-- Python `dt.replace(day := 1, hour := 0, minute := 0, second := 0,
microsecond := 0)`. -/
def monthStartMidnight (d : PyDateTime) : PyDateTime :=
  let c := civilFromDays d.days
  { days := daysFromCivil c.1 c.2.1 1, hour := 0, minute := 0, second := 0,
    microsecond := 0 }

/-- Python `s.replace(year := s.year + 1, month := 1) if s.month == 12
else s.replace(month := s.month + 1)` — the first day of the following
month when `s` is a month start (the only call site). -/
def nextMonthStart (s : PyDateTime) : PyDateTime :=
  let c := civilFromDays s.days
  if c.2.1 = 12 then { s with days := daysFromCivil (c.1 + 1) 1 c.2.2 }
  else { s with days := daysFromCivil c.1 (c.2.1 + 1) c.2.2 }

/-- The `while nd.weekday() >= 5: nd += timedelta(days=1)` loop of
`next_business_day`: advance day by day until the weekday is Monday
through Friday (terminates after at most two steps). -/
def skipWeekend (d : PyDateTime) : PyDateTime :=
  if 5 ≤ weekday d then skipWeekend (addDays d 1) else d
termination_by (if weekday d = 5 then 2 else if weekday d = 6 then 1 else 0)
decreasing_by
  simp only [weekday, addDays] at *
  split_ifs <;> omega

/-- `next_business_day(dt, hour)`: the day after `dt`, skipping weekend
days, at `hour:00:00.000000`.  Python's `datetime.replace` raises
`ValueError` for an hour outside 0–23, modelled as `none`. -/
def next_business_day (dt : PyDateTime) (hour : Nat) : Option PyDateTime :=
  if 24 ≤ hour then none
  else
    let nd := skipWeekend (addDays dt 1)
    some { nd with hour := hour, minute := 0, second := 0, microsecond := 0 }

/-- ASCII digit character of `n % 10`. -/
def digitCh (n : Nat) : Char := Char.ofNat (48 + n % 10)

/-- Zero-padded two-digit decimal. -/
def pad2 (n : Nat) : String := ⟨[digitCh (n / 10), digitCh n]⟩

/-- Zero-padded four-digit decimal (datetime years are 1–9999). -/
def pad4 (n : Nat) : String :=
  ⟨[digitCh (n / 1000), digitCh (n / 100), digitCh (n / 10), digitCh n]⟩

/-- Zero-padded six-digit decimal. -/
def pad6 (n : Nat) : String :=
  ⟨[digitCh (n / 100000), digitCh (n / 10000), digitCh (n / 1000),
    digitCh (n / 100), digitCh (n / 10), digitCh n]⟩

/-- Python `dt.isoformat(sep := ' ')`: `YYYY-MM-DD HH:MM:SS`, with the
microsecond part appended only when nonzero. -/
def pyIsoformat (d : PyDateTime) : String :=
  let c := civilFromDays d.days
  pad4 c.1.toNat ++ "-" ++ pad2 c.2.1 ++ "-" ++ pad2 c.2.2 ++ " " ++
    pad2 d.hour ++ ":" ++ pad2 d.minute ++ ":" ++ pad2 d.second ++
    (if d.microsecond = 0 then "" else "." ++ pad6 d.microsecond)

/-- Python `datetime.fromisoformat(s[:10] + ' 00:00:00')`, date part:
parses a strict `YYYY-MM-DD` (zero-padded, dashes at positions 4 and 7)
into a day number, validating month, day and `year ≥ 1`; the appended
time strings in the source are constants and always valid. -/
def parseDate10 (s : String) : Option Int :=
  match s.data with
  | [y1, y2, y3, y4, s1, m1, m2, s2, d1, d2] =>
    if isDigitCh y1 && isDigitCh y2 && isDigitCh y3 && isDigitCh y4 &&
        s1 == '-' && isDigitCh m1 && isDigitCh m2 && s2 == '-' &&
        isDigitCh d1 && isDigitCh d2 then
      let y : Nat := digitVal y1 * 1000 + digitVal y2 * 100 + digitVal y3 * 10 + digitVal y4
      let m : Nat := digitVal m1 * 10 + digitVal m2
      let d : Nat := digitVal d1 * 10 + digitVal d2
      if 1 ≤ y ∧ 1 ≤ m ∧ m ≤ 12 ∧ 1 ≤ d ∧ d ≤ daysInMonth y m then
        some (daysFromCivil y m d)
      else none
    else none
  | _ => none

/-! ### Natural-language query translator (`parse_nl_query`) -/

/-- The translated filter.  The Python function returns a dict with keys
`keyword`, `start`, `end`, `event_types`, `extensions`; for empty input
it returns `{}`, whose readers (via `dict.get`) observe exactly the
all-empty filter, which is how the empty case is modelled.  The Lean
field `endTime` stands for the reserved dict key `end`. -/
structure NLFilter where
  keyword : String
  start : Option String
  endTime : Option String
  event_types : List String
  extensions : List String
deriving DecidableEq

/-- The `events_map` table of `parse_nl_query`, in dict insertion order. -/
def events_map : List (String × String) :=
  [("생성", "created"), ("만들", "created"), ("추가", "created"),
   ("수정", "modified"), ("변경", "modified"),
   ("이동", "moved"), ("옮기", "moved"),
   ("삭제", "deleted"), ("없어지", "deleted"), ("제거", "deleted")]

/-- The `ext_syn` synonym table of `parse_nl_query`, in dict insertion order. -/
def ext_syn : List (String × List String) :=
  [("워드", [".doc", ".docx"]), ("엑셀", [".xls", ".xlsx"]), ("한글", [".hwp"]),
   ("파워포인트", [".ppt", ".pptx"]), ("파포", [".ppt", ".pptx"]), ("pdf", [".pdf"]),
   ("텍스트", [".txt"]), ("이미지", [".png", ".jpg", ".jpeg"]),
   ("사진", [".png", ".jpg", ".jpeg"])]

/-- The stop-word `drop` set of the keyword pass. -/
def drop_set : List String :=
  ["오늘", "어제", "이번", "지난", "이번주", "지난주", "이번달", "지난달",
   "파일", "확장자", "중", "포함"]

/-- Event-type extraction: scan `events_map` in table order, appending the
canonical type when its surface token occurs in the text and the type was
not already collected. -/
def extractEventTypes (text : String) : List String :=
  events_map.foldl
    (fun acc kv =>
      if strContains text kv.1 && !(acc.contains kv.2) then acc ++ [kv.2] else acc)
    []

/-- Does any of the surface tokens `ks` occur in the text?  (Used to state
the value of the event-type fold per canonical type.) -/
def groupMatch (text : String) (ks : List String) : Bool :=
  ks.any (fun k => strContains text k)

/-- Index of the first occurrence of `needle` in a character list (the
list's length when absent) — Python `hay.find(needle)` up to the absent
case; used to speak about order of first appearance. -/
def firstPos (needle : String) : List Char → Nat
  | [] => 0
  | c :: t => if needle.data.isPrefixOf (c :: t) then 0 else 1 + firstPos needle t

/-- Extension literals: whitespace/comma-delimited tokens that start with
a dot and have at most six characters, lowercased, appended in order with
no duplicate suppression. -/
def litExts (text : String) : List String :=
  (pyWords (replChar ',' ' ' text)).filterMap
    (fun tok => if startsDot tok && tok.length ≤ 6 then some (pyLower tok) else none)

/-- Append each element of `xs` to `acc` unless already present
(the inner `if e not in extensions: extensions.append(e)` loop). -/
def addUnseen (acc xs : List String) : List String :=
  xs.foldl (fun a e => if a.contains e then a else a ++ [e]) acc

/-- Extension extraction: the literal tokens, then for each synonym whose
lowercased surface form occurs in the lowercased text, its mapped
extensions, each appended only if not already collected. -/
def extractExtensions (text : String) : List String :=
  let tl := pyLower text
  ext_syn.foldl
    (fun acc p => if strContains tl (pyLower p.1) then addUnseen acc p.2 else acc)
    (litExts text)

/-- Residual keyword tokens: whitespace/comma-delimited tokens that are
not stop words, do not start with a dot, contain no event-type surface
token, and are not (lowercased) a synonym key. -/
def keywordTokens (text : String) : List String :=
  (pyWords (replChar ',' ' ' text)).filter
    (fun tok =>
      !(drop_set.contains tok) && !(startsDot tok) &&
      !(events_map.any (fun kv => strContains tok kv.1)) &&
      !(ext_syn.any (fun p => p.1 == pyLower tok)))

/-- The "today" range: `[d0, d0 + 1 day - 1 second]`. -/
def todayRange (d0 : PyDateTime) : PyDateTime × PyDateTime :=
  (d0, addSeconds (addDays d0 1) (-1))

/-- The "yesterday" range. -/
def yesterdayRange (d0 : PyDateTime) : PyDateTime × PyDateTime :=
  (addDays d0 (-1), addSeconds d0 (-1))

/-- The "this week" range: Monday of the current week, seven days minus a second. -/
def thisWeekRange (d0 : PyDateTime) : PyDateTime × PyDateTime :=
  let s := addDays d0 (-(weekday d0 : Int))
  (s, addSeconds (addDays s 7) (-1))

/-- The "last week" range: Monday of the preceding week, seven days minus a second. -/
def lastWeekRange (d0 : PyDateTime) : PyDateTime × PyDateTime :=
  let s := addDays d0 (-((weekday d0 : Int) + 7))
  (s, addSeconds (addDays s 7) (-1))

/-- The "this month" range: first of the month to the next month start minus a second. -/
def thisMonthRange (d0 : PyDateTime) : PyDateTime × PyDateTime :=
  let s := replaceDay1 d0
  (s, addSeconds (nextMonthStart s) (-1))

/-- The "last month" range: `lp` is the last second of the previous month. -/
def lastMonthRange (d0 : PyDateTime) : PyDateTime × PyDateTime :=
  let ft := replaceDay1 d0
  let lp := addSeconds ft (-1)
  (monthStartMidnight lp, lp)

/-- The explicit `A~B` rule: both sides (stripped, first ten characters)
must parse as dates; the Python `try` block discards the pair when either
`fromisoformat` raises. -/
def parseAB (t : String) : Option (PyDateTime × PyDateTime) :=
  let ab := splitFirstAux '~' t.data []
  match parseDate10 (pyTake (pyStrip ⟨ab.1⟩) 10), parseDate10 (pyTake (pyStrip ⟨ab.2⟩) 10) with
  | some da, some db => some (⟨da, 0, 0, 0, 0⟩, ⟨db, 23, 59, 59, 0⟩)
  | _, _ => none

/-- The literal-date rule: the first whitespace-delimited token of length
at least ten with dashes at positions 4 and 7 whose first ten characters
parse as a date; parse failures fall through to later tokens. -/
def literalFind (t : String) : Option (PyDateTime × PyDateTime) :=
  (pyWords t).findSome?
    (fun part =>
      if 10 ≤ part.length && charAtD part 4 == '-' && charAtD part 7 == '-' then
        (parseDate10 (pyTake part 10)).map
          (fun day => (⟨day, 0, 0, 0, 0⟩, ⟨day, 23, 59, 59, 0⟩))
      else none)

/-- Wrap an optional range as the pair of optional bounds. -/
def optPair : Option (PyDateTime × PyDateTime) → Option PyDateTime × Option PyDateTime
  | some r => (some r.1, some r.2)
  | none => (none, none)

/-- The inner `drange` of `parse_nl_query`: an if/elif chain over the
space-stripped text; the `~` branch falls through to the literal-date
scan when parsing raises, and the final fallthrough returns no bounds. -/
def drange (now : PyDateTime) (t : String) : Option PyDateTime × Option PyDateTime :=
  let d0 := dayStart now
  let t2 := removeSpaces t
  if strContains t2 "오늘" then optPair (some (todayRange d0))
  else if strContains t2 "어제" then optPair (some (yesterdayRange d0))
  else if strContains t2 "이번주" then optPair (some (thisWeekRange d0))
  else if strContains t2 "지난주" then optPair (some (lastWeekRange d0))
  else if strContains t2 "이번달" then optPair (some (thisMonthRange d0))
  else if strContains t2 "지난달" then optPair (some (lastMonthRange d0))
  else if strContains t "~" then
    match parseAB t with
    | some r => optPair (some r)
    | none => optPair (literalFind t)
  else optPair (literalFind t)

/-- Modelled from the spec: the date-range resolution as the spec states
it — an ordered rule list where each rule has a match condition, only the
first matching rule produces the range, and no match leaves both bounds
unset.  The `A~B` rule matches when a `~` is present and both sides
parse; the literal rule matches when some token parses as `YYYY-MM-DD`. -/
def drangeSpec (now : PyDateTime) (t : String) : Option PyDateTime × Option PyDateTime :=
  let d0 := dayStart now
  let t2 := removeSpaces t
  if strContains t2 "오늘" then optPair (some (todayRange d0))
  else if strContains t2 "어제" then optPair (some (yesterdayRange d0))
  else if strContains t2 "이번주" then optPair (some (thisWeekRange d0))
  else if strContains t2 "지난주" then optPair (some (lastWeekRange d0))
  else if strContains t2 "이번달" then optPair (some (thisMonthRange d0))
  else if strContains t2 "지난달" then optPair (some (lastMonthRange d0))
  else if strContains t "~" && (parseAB t).isSome then optPair (parseAB t)
  else if (literalFind t).isSome then optPair (literalFind t)
  else (none, none)

/-- No rule of the spec's ordered list matches the text. -/
def noRuleMatches (t : String) : Prop :=
  strContains (removeSpaces t) "오늘" = false ∧
  strContains (removeSpaces t) "어제" = false ∧
  strContains (removeSpaces t) "이번주" = false ∧
  strContains (removeSpaces t) "지난주" = false ∧
  strContains (removeSpaces t) "이번달" = false ∧
  strContains (removeSpaces t) "지난달" = false ∧
  parseAB t = none ∧
  literalFind t = none

/-- The natural-language query translator `parse_nl_query`, parameterised
by `now` (`datetime.now()` in the source). -/
def parse_nl_query (now : PyDateTime) (nlq : String) : NLFilter :=
  let text := pyStrip nlq
  if text = "" then ⟨"", none, none, [], []⟩
  else
    let se := drange now text
    { keyword := joinWith " " (keywordTokens text)
      start := se.1.map pyIsoformat
      endTime := se.2.map pyIsoformat
      event_types := extractEventTypes text
      extensions := extractExtensions text }

/-! ### Filesystem watcher (`FSHandler`, `MultiWatcher`) -/

/-- A row inserted into `file_events` (the `id` is assigned by SQLite). -/
structure PendingEvent where
  file_name : String
  event_time : String
  ext : String
  dir : String
  event_type : String
  src_path : String
  dest_path : Option String
deriving DecidableEq

/-- Path components after `pathlib` normalisation (empty and `.` segments
dropped; `..` kept). -/
def pathSegs (s : String) : List String :=
  (splitCh '/' s.data []).filter (fun x => x != "" && x != ".")

/-- `pathlib.Path(p).name`: the final component. -/
def pathName (s : String) : String := (pathSegs s).getLastD ""

/-- `str(pathlib.Path(p).parent)`: the path without its final component
(`.` for a bare name, `/` at the root). -/
def pyParent (s : String) : String :=
  let isAbs : Bool :=
    match s.data with
    | '/' :: _ => true
    | _ => false
  let par := (pathSegs s).dropLast
  if par.isEmpty then (if isAbs then "/" else ".")
  else (if isAbs then "/" else "") ++ joinWith "/" par

/-- `pathlib` suffix of a final component: the part from the last dot,
provided that dot is neither the first nor the last character. -/
def suffixOfName (nm : String) : String :=
  let cs := nm.data
  let j := cs.reverse.findIdx (fun c => c = '.')
  if j < cs.length ∧ 1 ≤ j ∧ j + 2 ≤ cs.length then ⟨cs.drop (cs.length - 1 - j)⟩
  else ""

/-- Python `dst or src` (an empty or absent destination falls back to the
source path). -/
def pyOrStr (dst : Option String) (src : String) : String :=
  match dst with
  | some d => if d = "" then src else d
  | none => src

/-- The extension allow-set built by `FSHandler.__init__`:
`{e.lower().strip() for e in exts if e.strip()}` (a set; list membership
models set membership). -/
def allowSet (exts : List String) : List String :=
  (exts.filter (fun e => pyStrip e != "")).map (fun e => pyStrip (pyLower e))

/-- `FSHandler._log`: derive the effective path (`dst or src`), lowercase
its suffix, drop the event when a non-empty allow-set excludes the
extension, otherwise produce the row inserted into `file_events`.
Insertion failures are caught and logged in the source; the model returns
the row that a successful insert stores. -/
def fsLog (exts : List String) (now : String) (etype : String)
    (src : String) (dst : Option String) : Option PendingEvent :=
  let p := pyOrStr dst src
  let ext := pyLower (suffixOfName (pathName p))
  if !(allowSet exts).isEmpty && !((allowSet exts).contains ext) then none
  else
    some { file_name := pathName p, event_time := now, ext := ext,
           dir := pyParent p, event_type := etype, src_path := src,
           dest_path := dst }

/-- Kind of a raw watchdog notification. -/
inductive EvKind where
  | created
  | modified
  | moved
  | deleted
deriving DecidableEq

/-- A raw watchdog notification (`dest_path` is delivered only for moves). -/
structure RawEvent where
  kind : EvKind
  is_directory : Bool
  src_path : String
  dest_path : Option String
deriving DecidableEq

/-- The `on_created`/`on_modified`/`on_moved`/`on_deleted` dispatch:
directory notifications are discarded, file notifications are logged with
the fixed type string; only `on_moved` forwards a destination path. -/
def handleEvent (exts : List String) (now : String) (ev : RawEvent) :
    Option PendingEvent :=
  if ev.is_directory then none
  else
    match ev.kind with
    | .created => fsLog exts now "created" ev.src_path none
    | .modified => fsLog exts now "modified" ev.src_path none
    | .moved => fsLog exts now "moved" ev.src_path ev.dest_path
    | .deleted => fsLog exts now "deleted" ev.src_path none

/-- The path whose suffix `_log` inspects for a given notification. -/
def loggedPath (ev : RawEvent) : String :=
  pyOrStr (if ev.kind == EvKind.moved then ev.dest_path else none) ev.src_path

/-- Observable calls made on the watchdog observer. -/
inductive ObsAction where
  | schedule (path : String)
  | obsStart
  | obsStop
  | join (timeout : Nat)
deriving DecidableEq

/-- `MultiWatcher` state: the configured roots and extensions, and
whether `self.observer` currently holds a live observer. -/
structure MultiWatcher where
  paths : List String
  exts : List String
  observer : Bool
deriving DecidableEq

/-- `MultiWatcher.start`: raises when the watchdog package is missing;
returns silently when an observer is already present (`if self.observer:
return`); otherwise schedules every root recursively, starts the
observer, and records it. -/
def MultiWatcher.start (watchdogAvailable : Bool) (w : MultiWatcher) :
    Except String (MultiWatcher × List ObsAction) :=
  if !watchdogAvailable then .error "watchdog missing: py -m pip install watchdog"
  else if w.observer then .ok (w, [])
  else .ok ({ w with observer := true },
            (w.paths.map ObsAction.schedule) ++ [ObsAction.obsStart])

/-- `MultiWatcher.stop`: when an observer is present, stop it, join with
a five-second timeout and clear the handle; otherwise do nothing.  The
function is total — no exception path exists. -/
def MultiWatcher.stop (w : MultiWatcher) : MultiWatcher × List ObsAction :=
  if w.observer then
    ({ w with observer := false }, [ObsAction.obsStop, ObsAction.join 5])
  else (w, [])

/-! ### Event store query (`search_events`) -/

/-- A row of the `file_events` table; `id` is the AUTOINCREMENT key, and
`event_time` the TEXT timestamp compared byte-wise by SQLite (equal to
the codepoint order of Lean strings on UTF-8). -/
structure FileEvent where
  id : Nat
  file_name : String
  event_time : String
  ext : String
  dir : String
  event_type : String
  src_path : String
  dest_path : Option String
deriving DecidableEq

/-- Lexicographic comparison of character lists by codepoint.  SQLite
compares TEXT values byte-wise (memcmp); on valid UTF-8 that order equals
codepoint order, so this models the comparisons and the ORDER BY of the
`event_time` TEXT column. -/
def charsLt : List Char → List Char → Bool
  | [], [] => false
  | [], _ :: _ => true
  | _ :: _, [] => false
  | a :: as, b :: bs =>
    if a.toNat < b.toNat then true
    else if b.toNat < a.toNat then false
    else charsLt as bs

/-- Strict SQLite TEXT order on strings. -/
def strLtB (a b : String) : Bool := charsLt a.data b.data

/-- Non-strict SQLite TEXT order on strings. -/
def strLeB (a b : String) : Bool := !(strLtB b a)

/-- SQL `col LIKE '%' || k || '%'`: substring match, case-insensitive on
ASCII (SQLite's default LIKE); wildcard characters inside the keyword are
outside the model. -/
def likeContains (field pat : String) : Bool :=
  listInfix (pyLower pat).data (pyLower field).data

/-- The `ext_filter` argument: the Python function accepts a single
string or a list of strings. -/
inductive ExtFilter where
  | str : String → ExtFilter
  | list : List String → ExtFilter
deriving DecidableEq

/-- Python truthiness of an optional string. -/
def optTruthy : Option String → Bool
  | none => false
  | some s => s != ""

/-- The WHERE clause of `search_events` applied to one row. -/
def rowMatches (keyword : String) (start fin : Option String)
    (extf : ExtFilter) (etypes : Option (List String)) (r : FileEvent) : Bool :=
  (keyword == "" || likeContains r.file_name keyword || likeContains r.dir keyword ||
    likeContains r.event_type keyword) &&
  (if optTruthy start then strLeB (start.getD "") r.event_time else true) &&
  (if optTruthy fin then strLeB r.event_time (fin.getD "") else true) &&
  (match extf with
   | .list l =>
     let exts := (l.filter (fun e => e != "")).map pyLower
     if exts.isEmpty then true else exts.contains r.ext
   | .str s => if s == "" then true else r.ext == pyLower s) &&
  (match etypes with
   | none => true
   | some l => if l.isEmpty then true else l.contains r.event_type)

theorem charsLt_asymm : ∀ a b : List Char, charsLt a b = true → charsLt b a = false
  | [], [] => by simp [charsLt]
  | [], _ :: _ => by simp [charsLt]
  | _ :: _, [] => by simp [charsLt]
  | a :: as, b :: bs => by
    simp only [charsLt]
    by_cases h1 : a.toNat < b.toNat
    · intro _
      simp [h1, Nat.lt_asymm h1]
    · by_cases h2 : b.toNat < a.toNat
      · simp [h1, h2]
      · simpa [h1, h2] using charsLt_asymm as bs

theorem charsLt_trans :
    ∀ a b c : List Char, charsLt a b = true → charsLt b c = true → charsLt a c = true
  | [], [], _, h1, _ => by simp [charsLt] at h1
  | [], _ :: _, [], _, h2 => by simp [charsLt] at h2
  | [], _ :: _, _ :: _, _, _ => by simp [charsLt]
  | _ :: _, [], _, h1, _ => by simp [charsLt] at h1
  | _ :: _, _ :: _, [], _, h2 => by simp [charsLt] at h2
  | a :: as, b :: bs, c :: cs, h1, h2 => by
    simp only [charsLt] at h1 h2 ⊢
    split_ifs at h1 h2 ⊢ <;>
      first
      | rfl
      | exact charsLt_trans as bs cs h1 h2
      | (exfalso; omega)

theorem charsLt_connex :
    ∀ a b : List Char, charsLt a b = false → charsLt b a = false → a = b
  | [], [] => by simp
  | [], _ :: _ => by simp [charsLt]
  | _ :: _, [] => by simp [charsLt]
  | a :: as, b :: bs => by
    simp only [charsLt]
    by_cases h1 : a.toNat < b.toNat
    · simp [h1]
    · by_cases h2 : b.toNat < a.toNat
      · simp [h1, h2]
      · have heq : a = b := Char.eq_of_val_eq (by
          apply UInt32.eq_of_val_eq
          apply Fin.ext
          exact Nat.le_antisymm (Nat.le_of_not_lt h2) (Nat.le_of_not_lt h1))
        intro ha hb
        have := charsLt_connex as bs (by simpa [h1, h2] using ha) (by simpa [h1, h2] using hb)
        simp [heq, this]

theorem strLtB_asymm {a b : String} (h : strLtB a b = true) : strLtB b a = false :=
  charsLt_asymm a.data b.data h

theorem strLtB_trans {a b c : String} (h1 : strLtB a b = true) (h2 : strLtB b c = true) :
    strLtB a c = true :=
  charsLt_trans a.data b.data c.data h1 h2

theorem strLtB_connex {a b : String} (h1 : strLtB a b = false) (h2 : strLtB b a = false) :
    a = b := by
  rcases a with ⟨da⟩
  rcases b with ⟨db⟩
  exact congrArg String.mk (charsLt_connex da db h1 h2)

/-- Result order of `ORDER BY event_time DESC`: `event_time` descending;
with the `idx_events_time` index SQLite returns equal timestamps in
descending rowid (insertion) order, so ties are ordered by `id`
descending. -/
def ordLe (a b : FileEvent) : Prop :=
  strLtB b.event_time a.event_time = true ∨
    (b.event_time = a.event_time ∧ b.id ≤ a.id)

instance : DecidableRel ordLe := fun a b => by unfold ordLe; infer_instance

instance : IsTotal FileEvent ordLe where
  total a b := by
    unfold ordLe
    by_cases h1 : strLtB b.event_time a.event_time = true
    · exact Or.inl (Or.inl h1)
    · by_cases h2 : strLtB a.event_time b.event_time = true
      · exact Or.inr (Or.inl h2)
      · have heq : a.event_time = b.event_time :=
          strLtB_connex (Bool.eq_false_iff.mpr (by simpa using h2))
            (Bool.eq_false_iff.mpr (by simpa using h1))
        rcases Nat.le_total b.id a.id with h3 | h3
        · exact Or.inl (Or.inr ⟨heq.symm, h3⟩)
        · exact Or.inr (Or.inr ⟨heq, h3⟩)

instance : IsTrans FileEvent ordLe where
  trans a b c hab hbc := by
    unfold ordLe at *
    rcases hab with h1 | ⟨h1, h1i⟩
    · rcases hbc with h2 | ⟨h2, _⟩
      · exact Or.inl (strLtB_trans h2 h1)
      · exact Or.inl (h2 ▸ h1)
    · rcases hbc with h2 | ⟨h2, h2i⟩
      · exact Or.inl (h1 ▸ h2)
      · exact Or.inr ⟨h1 ▸ h2, h2i.trans h1i⟩

/-- `search_events`: filter `file_events` by the WHERE clause, order by
`event_time` descending (ties by `id` descending), `LIMIT 1000`. -/
def search_events (db : List FileEvent) (keyword : String)
    (start fin : Option String) (extf : ExtFilter)
    (etypes : Option (List String)) : List FileEvent :=
  (List.insertionSort ordLe
      (db.filter (rowMatches keyword start fin extf etypes))).take 1000

/-- A small concrete `file_events` table (with an `event_time` tie between
ids 2 and 3) used by the concrete instances below. -/
def sampleDb : List FileEvent :=
  [⟨1, "a", "2024-01-01 10:00:00", ".txt", "/h", "created", "/h/a", none⟩,
   ⟨2, "b", "2024-01-02 10:00:00", ".txt", "/h", "created", "/h/b", none⟩,
   ⟨3, "c", "2024-01-02 10:00:00", ".txt", "/h", "deleted", "/h/c", none⟩]

/-! ### Memo segmenter (`parse_memo`) and reminder helper -/

/-- A parsed memo item. -/
structure MemoItem where
  idx : Nat
  title : String
  details : String
deriving DecidableEq

/-- `parse_memo`: split the stripped text on blank lines, strip each
block, drop empty blocks, and turn block `i` (1-based) into an item whose
title is the first line cut to 120 characters and whose details are the
remaining lines joined by single spaces, cut to 500 characters. -/
def parse_memo (text : String) : List MemoItem :=
  let blocks := ((splitNNAux (stripChars text.data) []).map pyStrip).filter (fun b => b != "")
  blocks.enum.map
    (fun p =>
      let lines := pySplitlines p.2
      { idx := p.1 + 1, title := pyTake (lines.headD "") 120,
        details := pyTake (joinWith " " lines.tail) 500 })

/-! ## Theorems -/

theorem strLtB_irrefl (a : String) : strLtB a a = false := by
  cases h : strLtB a a
  · rfl
  · exact absurd (strLtB_asymm h) (by simp [h])

/-- Claim C1: for every database and every filter combination,
`search_events` returns at most 1000 rows, the rows are non-increasing in
`event_time` (SQLite TEXT order), and — given the AUTOINCREMENT
invariant that ids are unique — rows with equal `event_time` appear with
strictly decreasing id, i.e. most recently inserted first. -/
theorem claim_C1_search_events (db : List FileEvent) (kw : String)
    (st fin : Option String) (extf : ExtFilter) (ets : Option (List String)) :
    (search_events db kw st fin extf ets).length ≤ 1000 ∧
    (search_events db kw st fin extf ets).Pairwise
      (fun a b => strLeB b.event_time a.event_time = true) ∧
    ((db.map FileEvent.id).Nodup →
      (search_events db kw st fin extf ets).Pairwise
        (fun a b => b.event_time = a.event_time → b.id < a.id)) := by
  have hsorted : (search_events db kw st fin extf ets).Pairwise ordLe := by
    unfold search_events
    exact List.Pairwise.sublist (List.take_sublist _ _)
      (List.sorted_insertionSort ordLe _)
  refine ⟨?_, ?_, ?_⟩
  · unfold search_events
    exact List.length_take_le _ _
  · refine hsorted.imp ?_
    intro a b hab
    rcases hab with h | ⟨h, _⟩
    · unfold strLeB
      rw [strLtB_asymm h]
      rfl
    · unfold strLeB
      rw [h, strLtB_irrefl]
      rfl
  · intro hnd
    have hne : (search_events db kw st fin extf ets).Pairwise
        (fun a b => a.id ≠ b.id) := by
      have h1 : ((db.filter (rowMatches kw st fin extf ets)).map FileEvent.id).Nodup :=
        List.Nodup.sublist (List.Sublist.map _ (List.filter_sublist _)) hnd
      have h2 : ((List.insertionSort ordLe
          (db.filter (rowMatches kw st fin extf ets))).map FileEvent.id).Nodup :=
        ((List.perm_insertionSort ordLe _).map FileEvent.id).nodup_iff.mpr h1
      have h3 : ((search_events db kw st fin extf ets).map FileEvent.id).Nodup := by
        unfold search_events
        rw [List.map_take]
        exact List.Nodup.sublist (List.take_sublist _ _) h2
      exact List.pairwise_map.mp h3
    refine (hsorted.and hne).imp ?_
    rintro a b ⟨hab, hne2⟩ heq
    rcases hab with h | ⟨h, hid⟩
    · rw [heq, strLtB_irrefl] at h
      exact absurd h (by simp)
    · omega

/-- Witness for C1: the tie between ids 2 and 3 in `sampleDb` comes out
most-recently-inserted first. -/
theorem claim_C1_witness :
    (sampleDb.map FileEvent.id).Nodup ∧
      (search_events sampleDb "" none none (ExtFilter.str "") none).Pairwise
        (fun a b => b.event_time = a.event_time → b.id < a.id) :=
  ⟨by decide,
   (claim_C1_search_events sampleDb "" none none (ExtFilter.str "") none).2.2 (by decide)⟩

/-- Claim C5 counterexample: starting a `MultiWatcher` that is already
running does not fail — with the watchdog package available and
`observer` set, `start` returns successfully with the state unchanged and
no observer actions, contradicting the claimed explicit
`AlreadyRunningError`. -/
theorem claim_C5_counterexample :
    MultiWatcher.start true ⟨["/home/u/docs"], [".txt"], true⟩ =
      .ok (⟨["/home/u/docs"], [".txt"], true⟩, []) := rfl

/-- Claim C5 (amended): calling `start` while already running is a
silent no-op — it raises nothing, makes no state change and performs no
observer actions (`if self.observer: return`). -/
theorem claim_C5_start_running_noop (avail : Bool) (w : MultiWatcher)
    (ha : avail = true) (ho : w.observer = true) :
    MultiWatcher.start avail w = .ok (w, []) := by
  subst ha
  unfold MultiWatcher.start
  simp [ho]

/-- Witness for the amended C5 at a concrete running watcher. -/
theorem claim_C5_witness :
    (true : Bool) = true ∧ (⟨["p"], [], true⟩ : MultiWatcher).observer = true ∧
      MultiWatcher.start true ⟨["p"], [], true⟩ = .ok (⟨["p"], [], true⟩, []) :=
  ⟨rfl, rfl, claim_C5_start_running_noop true ⟨["p"], [], true⟩ rfl rfl⟩

theorem addSeconds_midnight_minus_one (d : Int) :
    addSeconds (addDays ⟨d, 0, 0, 0, 0⟩ 1) (-1) = ⟨d, 23, 59, 59, 0⟩ := by
  unfold addSeconds addDays secOfDay
  simp only [PyDateTime.mk.injEq]
  refine ⟨?_, ?_, ?_, ?_, trivial⟩ <;> omega

theorem drange_today_concrete (now : PyDateTime) :
    drange now "오늘 삭제 xlsx" =
      (some ⟨now.days, 0, 0, 0, 0⟩, some ⟨now.days, 23, 59, 59, 0⟩) := by
  unfold drange
  rw [if_pos (by decide)]
  unfold optPair todayRange dayStart
  rw [addSeconds_midnight_minus_one]

/-- Claim C3 counterexample: at a concrete `now`, translate("오늘 삭제
xlsx") yields an empty extension set (the bare token `xlsx` neither
starts with a dot nor matches a synonym) and residual keyword "xlsx",
contradicting the claimed `.xlsx ∈ extensions` and empty keyword. -/
theorem claim_C3_counterexample :
    (parse_nl_query ⟨19844, 13, 45, 10, 123456⟩ "오늘 삭제 xlsx").extensions = [] ∧
      (parse_nl_query ⟨19844, 13, 45, 10, 123456⟩ "오늘 삭제 xlsx").keyword = "xlsx" := by
  constructor <;> decide

/-- Claim C3 (amended): for every `now`, translate("오늘 삭제 xlsx")
yields event types exactly {deleted}, an empty extension set, a date
range exactly covering the current calendar day (00:00:00 through
23:59:59 of `now`'s day), and residual keyword "xlsx". -/
theorem claim_C3_translate_today (now : PyDateTime) :
    parse_nl_query now "오늘 삭제 xlsx" =
      { keyword := "xlsx",
        start := some (pyIsoformat ⟨now.days, 0, 0, 0, 0⟩),
        endTime := some (pyIsoformat ⟨now.days, 23, 59, 59, 0⟩),
        event_types := ["deleted"],
        extensions := [] } := by
  unfold parse_nl_query
  rw [if_neg (by decide)]
  rw [show pyStrip "오늘 삭제 xlsx" = "오늘 삭제 xlsx" from by decide]
  rw [drange_today_concrete]
  simp only [Option.map_some', NLFilter.mk.injEq]
  exact ⟨by decide, trivial, trivial, by decide, by decide⟩

/-- Witness for the amended C3 at a concrete `now`. -/
theorem claim_C3_witness :
    parse_nl_query ⟨19844, 13, 45, 10, 0⟩ "오늘 삭제 xlsx" =
      { keyword := "xlsx",
        start := some (pyIsoformat ⟨19844, 0, 0, 0, 0⟩),
        endTime := some (pyIsoformat ⟨19844, 23, 59, 59, 0⟩),
        event_types := ["deleted"],
        extensions := [] } :=
  claim_C3_translate_today ⟨19844, 13, 45, 10, 0⟩

/-- Claim C4: the date-range resolution checks its rules in the fixed
priority order and only the first matching rule applies — `drange`
coincides with the spec's ordered rule list everywhere; in particular
"지난주 2024-05-01" takes the last-week range even though its literal
date token also matches, and when no rule matches both bounds are
unset. -/
theorem claim_C4_drange_priority :
    (∀ now t, drange now t = drangeSpec now t) ∧
    (∀ now, drange now "지난주 2024-05-01" =
      (some (lastWeekRange (dayStart now)).1, some (lastWeekRange (dayStart now)).2)) ∧
    (literalFind "지난주 2024-05-01").isSome = true ∧
    (∀ now t, noRuleMatches t → drange now t = (none, none)) := by
  refine ⟨?_, ?_, by decide, ?_⟩
  · intro now t
    unfold drange drangeSpec
    by_cases h1 : strContains (removeSpaces t) "오늘" = true
    · rw [if_pos h1, if_pos h1]
    · rw [if_neg h1, if_neg h1]
      by_cases h2 : strContains (removeSpaces t) "어제" = true
      · rw [if_pos h2, if_pos h2]
      · rw [if_neg h2, if_neg h2]
        by_cases h3 : strContains (removeSpaces t) "이번주" = true
        · rw [if_pos h3, if_pos h3]
        · rw [if_neg h3, if_neg h3]
          by_cases h4 : strContains (removeSpaces t) "지난주" = true
          · rw [if_pos h4, if_pos h4]
          · rw [if_neg h4, if_neg h4]
            by_cases h5 : strContains (removeSpaces t) "이번달" = true
            · rw [if_pos h5, if_pos h5]
            · rw [if_neg h5, if_neg h5]
              by_cases h6 : strContains (removeSpaces t) "지난달" = true
              · rw [if_pos h6, if_pos h6]
              · rw [if_neg h6, if_neg h6]
                by_cases h7 : strContains t "~" = true
                · cases hab : parseAB t with
                  | none =>
                    rw [if_pos h7]
                    rw [if_neg (by simp)]
                    cases hlf : literalFind t with
                    | none =>
                      rw [if_neg (by simp)]
                      rfl
                    | some r =>
                      rw [if_pos (by simp)]
                  | some r =>
                    rw [if_pos h7]
                    rw [if_pos (by simp [h7])]
                · rw [if_neg h7]
                  rw [if_neg (by rw [Bool.and_eq_true]; exact fun hc => h7 hc.1)]
                  cases hlf : literalFind t with
                  | none =>
                    rw [if_neg (by simp)]
                    rfl
                  | some r =>
                    rw [if_pos (by simp)]
  · intro now
    unfold drange
    rw [if_neg (by decide), if_neg (by decide), if_neg (by decide), if_pos (by decide)]
    rfl
  · intro now t hm
    obtain ⟨h1, h2, h3, h4, h5, h6, h7, h8⟩ := hm
    unfold drange
    simp only [h1, h2, h3, h4, h5, h6, Bool.false_eq_true, if_false]
    split
    · rw [h7, h8]
      rfl
    · rw [h8]
      rfl

/-- Witness for C4: the competing-cues instance at a concrete `now`. -/
theorem claim_C4_witness :
    drange ⟨19844, 13, 45, 10, 0⟩ "지난주 2024-05-01" =
      (some (lastWeekRange (dayStart ⟨19844, 13, 45, 10, 0⟩)).1,
       some (lastWeekRange (dayStart ⟨19844, 13, 45, 10, 0⟩)).2) :=
  claim_C4_drange_priority.2.1 ⟨19844, 13, 45, 10, 0⟩

theorem eventStep_group_mem (text v : String) :
    ∀ (ks : List String) (acc : List String), v ∈ acc →
      (ks.map (fun k => (k, v))).foldl
          (fun acc kv =>
            if strContains text kv.1 && !(acc.contains kv.2) then acc ++ [kv.2] else acc)
          acc = acc := by
  intro ks
  induction ks with
  | nil => intro acc _; rfl
  | cons k rest ih =>
    intro acc hv
    simp only [List.map_cons, List.foldl_cons]
    rw [show (if strContains text (k, v).1 && !(acc.contains (k, v).2) then
        acc ++ [(k, v).2] else acc) = acc from by simp [hv]]
    exact ih acc hv

theorem eventStep_group (text v : String) :
    ∀ (ks : List String) (acc : List String), v ∉ acc →
      (ks.map (fun k => (k, v))).foldl
          (fun acc kv =>
            if strContains text kv.1 && !(acc.contains kv.2) then acc ++ [kv.2] else acc)
          acc = if groupMatch text ks then acc ++ [v] else acc := by
  intro ks
  induction ks with
  | nil => intro acc _; rfl
  | cons k rest ih =>
    intro acc hv
    simp only [List.map_cons, List.foldl_cons]
    by_cases hk : strContains text k = true
    · rw [show (if strContains text (k, v).1 && !(acc.contains (k, v).2) then
          acc ++ [(k, v).2] else acc) = acc ++ [v] from by simp [hk, hv]]
      rw [eventStep_group_mem text v rest (acc ++ [v]) (by simp)]
      rw [show groupMatch text (k :: rest) = true from by simp [groupMatch, hk]]
      rfl
    · rw [show (if strContains text (k, v).1 && !(acc.contains (k, v).2) then
          acc ++ [(k, v).2] else acc) = acc from by simp [hk]]
      rw [ih acc hv]
      rw [show groupMatch text (k :: rest) = groupMatch text rest from by
        simp [groupMatch, hk]]

/-- The event-type fold evaluates group by group: each canonical type is
appended (once) exactly when one of its surface tokens occurs, in the
fixed table order created, modified, moved, deleted. -/
theorem extractEventTypes_eq (text : String) :
    extractEventTypes text =
      ((if groupMatch text ["생성", "만들", "추가"] then ["created"] else []) ++
        (if groupMatch text ["수정", "변경"] then ["modified"] else [])) ++
        ((if groupMatch text ["이동", "옮기"] then ["moved"] else []) ++
          (if groupMatch text ["삭제", "없어지", "제거"] then ["deleted"] else [])) := by
  have hsplit : events_map =
      (["생성", "만들", "추가"].map (fun k => (k, "created"))) ++
        ((["수정", "변경"].map (fun k => (k, "modified"))) ++
          ((["이동", "옮기"].map (fun k => (k, "moved"))) ++
            (["삭제", "없어지", "제거"].map (fun k => (k, "deleted"))))) := by decide
  unfold extractEventTypes
  rw [hsplit]
  rw [List.foldl_append, List.foldl_append, List.foldl_append]
  rw [eventStep_group text "created" _ _ (by simp)]
  by_cases h1 : groupMatch text ["생성", "만들", "추가"] = true <;>
    simp only [h1, if_true, if_false, Bool.false_eq_true, ite_true, ite_false] <;>
    [skip; skip] <;>
  · rw [eventStep_group text "modified" _ _ (by simp)]
    by_cases h2 : groupMatch text ["수정", "변경"] = true <;>
      simp only [h2, if_true, if_false, Bool.false_eq_true, ite_true, ite_false] <;>
    · rw [eventStep_group text "moved" _ _ (by simp)]
      by_cases h3 : groupMatch text ["이동", "옮기"] = true <;>
        simp only [h3, if_true, if_false, Bool.false_eq_true, ite_true, ite_false] <;>
      · rw [eventStep_group text "deleted" _ _ (by simp)]
        by_cases h4 : groupMatch text ["삭제", "없어지", "제거"] = true <;>
          simp [h4]

/-- Claim C8 counterexample: in "삭제 생성" the deleted-token 삭제 occurs
strictly before the created-token 생성, yet the extraction yields
["created", "deleted"] — table order, not order of first appearance in
the input as claimed. -/
theorem claim_C8_counterexample :
    extractEventTypes "삭제 생성" = ["created", "deleted"] ∧
      firstPos "삭제" "삭제 생성".data < firstPos "생성" "삭제 생성".data := by
  constructor <;> decide

theorem eventTypes_mem_aux (text : String) :
    ∀ (l : List (String × String)) (acc : List String) (v : String),
      (v ∈ l.foldl (fun acc kv =>
          if strContains text kv.1 && !(acc.contains kv.2) then acc ++ [kv.2] else acc)
          acc ↔
        v ∈ acc ∨ ∃ kv ∈ l, v = kv.2 ∧ strContains text kv.1 = true) := by
  intro l
  induction l with
  | nil => simp
  | cons kv rest ih =>
    intro acc v
    rw [List.foldl_cons, ih]
    by_cases hc : strContains text kv.1 = true
    · by_cases hm : kv.2 ∈ acc
      · rw [show (if strContains text kv.1 && !(acc.contains kv.2) then
            acc ++ [kv.2] else acc) = acc from by simp [hm]]
        simp only [List.exists_mem_cons_iff, hc, and_true]
        constructor
        · rintro (h | h)
          · exact Or.inl h
          · exact Or.inr (Or.inr h)
        · rintro (h | h | h)
          · exact Or.inl h
          · exact Or.inl (h ▸ hm)
          · exact Or.inr h
      · rw [show (if strContains text kv.1 && !(acc.contains kv.2) then
            acc ++ [kv.2] else acc) = acc ++ [kv.2] from by simp [hc, hm]]
        simp only [List.mem_append, List.mem_singleton, List.exists_mem_cons_iff, hc,
          and_true, or_assoc]
    · rw [show (if strContains text kv.1 && !(acc.contains kv.2) then
          acc ++ [kv.2] else acc) = acc from by simp [hc]]
      simp only [List.exists_mem_cons_iff, hc, Bool.false_eq_true, and_false, false_or]

theorem eventTypes_nodup_aux (text : String) :
    ∀ (l : List (String × String)) (acc : List String), acc.Nodup →
      (l.foldl (fun acc kv =>
          if strContains text kv.1 && !(acc.contains kv.2) then acc ++ [kv.2] else acc)
          acc).Nodup := by
  intro l
  induction l with
  | nil => exact fun acc h => h
  | cons kv rest ih =>
    intro acc hn
    rw [List.foldl_cons]
    by_cases hm : kv.2 ∈ acc
    · rw [show (if strContains text kv.1 && !(acc.contains kv.2) then
          acc ++ [kv.2] else acc) = acc from by simp [hm]]
      exact ih acc hn
    · by_cases hc : strContains text kv.1 = true
      · rw [show (if strContains text kv.1 && !(acc.contains kv.2) then
            acc ++ [kv.2] else acc) = acc ++ [kv.2] from by simp [hc, hm]]
        exact ih _ (by simp [List.nodup_append, hn, hm])
      · rw [show (if strContains text kv.1 && !(acc.contains kv.2) then
            acc ++ [kv.2] else acc) = acc from by simp [hc]]
        exact ih acc hn

/-- Claim C8 (amended): for every input, a canonical event type is
included iff one of its surface tokens occurs as a substring of the
input; the resulting list contains no duplicates; and the canonical
types appear in the fixed table order created, modified, moved, deleted
(the dict insertion order of `events_map`), not in the order of first
appearance of their tokens in the input. -/
theorem claim_C8_event_types (text : String) :
    (∀ v, v ∈ extractEventTypes text ↔
      ∃ kv ∈ events_map, v = kv.2 ∧ strContains text kv.1 = true) ∧
    (extractEventTypes text).Nodup ∧
    (extractEventTypes text).Sublist ["created", "modified", "moved", "deleted"] := by
  refine ⟨?_, ?_, ?_⟩
  · intro v
    unfold extractEventTypes
    rw [eventTypes_mem_aux]
    simp
  · exact eventTypes_nodup_aux text events_map [] (by simp)
  · rw [extractEventTypes_eq]
    by_cases h1 : groupMatch text ["생성", "만들", "추가"] = true <;>
      by_cases h2 : groupMatch text ["수정", "변경"] = true <;>
        by_cases h3 : groupMatch text ["이동", "옮기"] = true <;>
          by_cases h4 : groupMatch text ["삭제", "없어지", "제거"] = true <;>
            simp only [h1, h2, h3, h4, if_true, if_false, Bool.false_eq_true,
              ite_true, ite_false] <;>
            decide

/-- Witness for the amended C8 at a concrete input and type. -/
theorem claim_C8_witness :
    "deleted" ∈ extractEventTypes "어제 파일 삭제" ↔
      ∃ kv ∈ events_map, "deleted" = kv.2 ∧ strContains "어제 파일 삭제" kv.1 = true :=
  (claim_C8_event_types "어제 파일 삭제").1 "deleted"

theorem addUnseen_cons (acc : List String) (x : String) (xs : List String) :
    addUnseen acc (x :: xs) = addUnseen (if acc.contains x then acc else acc ++ [x]) xs := rfl

theorem addUnseen_mem (e : String) :
    ∀ (xs acc : List String), e ∈ addUnseen acc xs ↔ e ∈ acc ∨ e ∈ xs := by
  intro xs
  induction xs with
  | nil =>
    intro acc
    simp [addUnseen]
  | cons x rest ih =>
    intro acc
    rw [addUnseen_cons, ih]
    by_cases hm : x ∈ acc
    · rw [if_pos (by simp [hm])]
      constructor
      · rintro (h | h)
        · exact Or.inl h
        · exact Or.inr (List.mem_cons_of_mem _ h)
      · rintro (h | h)
        · exact Or.inl h
        · rcases List.mem_cons.mp h with h | h
          · exact Or.inl (h ▸ hm)
          · exact Or.inr h
    · rw [if_neg (by simp [hm])]
      simp [List.mem_append, List.mem_cons, or_assoc]

theorem addUnseen_count (e : String) :
    ∀ (xs acc : List String),
      (addUnseen acc xs).count e = acc.count e + (if e ∉ acc ∧ e ∈ xs then 1 else 0) := by
  intro xs
  induction xs with
  | nil =>
    intro acc
    simp [addUnseen]
  | cons x rest ih =>
    intro acc
    rw [addUnseen_cons, ih]
    by_cases hm : x ∈ acc
    · rw [if_pos (by simp [hm])]
      congr 1
      by_cases he : e = x
      · subst he
        simp [hm]
      · simp [List.mem_cons, he]
    · rw [if_neg (by simp [hm]), List.count_append]
      by_cases he : e = x
      · subst he
        rw [List.count_singleton_self]
        simp only [show (e ∉ acc ++ [e] ∧ e ∈ rest) = False from by simp,
          show (e ∉ acc ∧ e ∈ e :: rest) = True from by simp [hm], if_true, if_false]
      · rw [show List.count e [x] = 0 from List.count_eq_zero.mpr (by simp [he])]
        simp only [show (e ∉ acc ++ [x] ∧ e ∈ rest) = (e ∉ acc ∧ e ∈ x :: rest) from by
          simp [List.mem_append, List.mem_cons, he]]
        omega

theorem addUnseen_starts (xs : List String) : ∀ acc : List String, acc <+: addUnseen acc xs := by
  induction xs with
  | nil =>
    intro acc
    exact ⟨[], List.append_nil _⟩
  | cons x rest ih =>
    intro acc
    rw [addUnseen_cons]
    by_cases hm : acc.contains x = true
    · rw [if_pos hm]
      exact ih acc
    · rw [if_neg hm]
      obtain ⟨t, ht⟩ := ih (acc ++ [x])
      exact ⟨x :: t, by rw [← ht]; simp⟩

theorem synFold_count (tl e : String) :
    ∀ (tbl : List (String × List String)) (acc : List String),
      ((tbl.foldl (fun acc p =>
          if strContains tl (pyLower p.1) then addUnseen acc p.2 else acc) acc).count e) =
        acc.count e +
          (if e ∉ acc ∧ ∃ p ∈ tbl, strContains tl (pyLower p.1) = true ∧ e ∈ p.2
           then 1 else 0) := by
  intro tbl
  induction tbl with
  | nil =>
    intro acc
    simp
  | cons p rest ih =>
    intro acc
    rw [List.foldl_cons]
    by_cases hp : strContains tl (pyLower p.1) = true
    · rw [if_pos hp, ih, addUnseen_count]
      simp only [show (e ∉ addUnseen acc p.2) = (e ∉ acc ∧ e ∉ p.2) from by
        simp [addUnseen_mem, not_or]]
      by_cases h1 : e ∈ acc <;> by_cases h2 : e ∈ p.2 <;>
        by_cases h3 : (∃ q ∈ rest, strContains tl (pyLower q.1) = true ∧ e ∈ q.2) <;>
          simp [h1, h2, h3, hp, List.exists_mem_cons_iff]
    · rw [if_neg hp, ih]
      simp only [show
          (e ∉ acc ∧ ∃ q ∈ p :: rest, strContains tl (pyLower q.1) = true ∧ e ∈ q.2) =
            (e ∉ acc ∧ ∃ q ∈ rest, strContains tl (pyLower q.1) = true ∧ e ∈ q.2) from by
        simp [List.exists_mem_cons_iff, hp]]

theorem synFold_starts (tl : String) :
    ∀ (tbl : List (String × List String)) (acc : List String),
      acc <+: tbl.foldl (fun acc p =>
        if strContains tl (pyLower p.1) then addUnseen acc p.2 else acc) acc := by
  intro tbl
  induction tbl with
  | nil =>
    intro acc
    exact ⟨[], List.append_nil _⟩
  | cons p rest ih =>
    intro acc
    rw [List.foldl_cons]
    by_cases hp : strContains tl (pyLower p.1) = true
    · rw [if_pos hp]
      obtain ⟨t1, ht1⟩ := addUnseen_starts p.2 acc
      obtain ⟨t2, ht2⟩ := ih (addUnseen acc p.2)
      exact ⟨t1 ++ t2, by rw [← List.append_assoc, ht1, ht2]⟩
    · rw [if_neg hp]
      exact ih acc

/-- Claim C9 counterexample: an extension literal occurring twice in the
input contributes two entries, not one — the literal pass appends without
any duplicate check. -/
theorem claim_C9_counterexample :
    extractExtensions ".txt .txt" = [".txt", ".txt"] := by decide

/-- Claim C9 (amended): the extension extraction returns the literal
dot-tokens (verbatim, lowercased, in order, duplicates kept) followed by
synonym-mapped extensions; a synonym-mapped extension is appended exactly
once when some matching synonym maps to it and it is not already present
— duplicate suppression applies only to the synonym pass, so a literal
token occurring twice contributes two entries. -/
theorem claim_C9_extensions (text : String) :
    litExts text <+: extractExtensions text ∧
    (∀ e, (extractExtensions text).count e =
      (litExts text).count e +
        (if e ∉ litExts text ∧
            ∃ p ∈ ext_syn, strContains (pyLower text) (pyLower p.1) = true ∧ e ∈ p.2
         then 1 else 0)) := by
  constructor
  · exact synFold_starts (pyLower text) ext_syn (litExts text)
  · intro e
    exact synFold_count (pyLower text) e ext_syn (litExts text)

/-- Witness for the amended C9 at a concrete input and extension. -/
theorem claim_C9_witness :
    (extractExtensions "엑셀 보고서").count ".xlsx" =
      (litExts "엑셀 보고서").count ".xlsx" +
        (if ".xlsx" ∉ litExts "엑셀 보고서" ∧
            ∃ p ∈ ext_syn, strContains (pyLower "엑셀 보고서") (pyLower p.1) = true ∧
              ".xlsx" ∈ p.2
         then 1 else 0) :=
  (claim_C9_extensions "엑셀 보고서").2 ".xlsx"

theorem fsLog_ext (exts : List String) (now etype src : String) (dst : Option String)
    (st : PendingEvent) (h : fsLog exts now etype src dst = some st) :
    st.ext = pyLower (suffixOfName (pathName (pyOrStr dst src))) := by
  unfold fsLog at h
  dsimp only at h
  split at h
  · cases h
  · rw [← Option.some.inj h]

theorem fsLog_dropped (exts : List String) (now etype src : String) (dst : Option String)
    (h1 : allowSet exts ≠ [])
    (h2 : pyLower (suffixOfName (pathName (pyOrStr dst src))) ∉ allowSet exts) :
    fsLog exts now etype src dst = none := by
  unfold fsLog
  rw [if_pos]
  rw [Bool.and_eq_true, Bool.not_eq_true', Bool.not_eq_true']
  constructor
  · cases he : allowSet exts
    · exact absurd he h1
    · simp [he]
  · simpa using h2

theorem handler_report_dropped (now : String) :
    handleEvent [".txt"] now ⟨EvKind.created, false, "/home/u/report.docx", none⟩ = none := rfl

theorem handler_notes_kept (now : String) :
    handleEvent [".txt"] now ⟨EvKind.created, false, "/home/u/notes.txt", none⟩ =
      some ⟨"notes.txt", now, ".txt", "/home/u", "created", "/home/u/notes.txt", none⟩ := rfl

/-- Claim C2: a stored event's `ext` is the lowercased pathlib suffix of
the destination path when a truthy destination is present (which happens
only for moved notifications) and of the source path otherwise;
directory notifications are never stored; a non-empty allow-list drops
events whose extension is not a member; and concretely, with allow-list
`[".txt"]`, a created `report.docx` is never persisted while a created
`notes.txt` is persisted with `ext = ".txt"`. -/
theorem claim_C2_handler_ext (exts : List String) (now : String) (ev : RawEvent) :
    (ev.is_directory = true → handleEvent exts now ev = none) ∧
    (∀ st, handleEvent exts now ev = some st →
      st.ext = pyLower (suffixOfName (pathName (loggedPath ev))) ∧
      (∀ d, ev.kind = EvKind.moved → ev.dest_path = some d → d ≠ "" →
        st.ext = pyLower (suffixOfName (pathName d))) ∧
      ((ev.kind ≠ EvKind.moved ∨ ev.dest_path = none ∨ ev.dest_path = some "") →
        st.ext = pyLower (suffixOfName (pathName ev.src_path)))) ∧
    (allowSet exts ≠ [] →
      pyLower (suffixOfName (pathName (loggedPath ev))) ∉ allowSet exts →
      handleEvent exts now ev = none) ∧
    handleEvent [".txt"] now ⟨EvKind.created, false, "/home/u/report.docx", none⟩ = none ∧
    handleEvent [".txt"] now ⟨EvKind.created, false, "/home/u/notes.txt", none⟩ =
      some ⟨"notes.txt", now, ".txt", "/home/u", "created", "/home/u/notes.txt", none⟩ := by
  obtain ⟨k, dir, src, dst⟩ := ev
  refine ⟨?_, ?_, ?_, handler_report_dropped now, handler_notes_kept now⟩
  · intro h
    have h2 : dir = true := h
    subst h2
    rfl
  · intro st h
    cases hdir : dir
    · subst hdir
      cases k
      case moved =>
        have hb : st.ext = pyLower (suffixOfName (pathName (pyOrStr dst src))) :=
          fsLog_ext exts now "moved" src dst st h
        refine ⟨hb, ?_, ?_⟩
        · intro d _ hd hne
          have hd2 : dst = some d := hd
          subst hd2
          rw [hb]
          simp [pyOrStr, hne]
        · rintro (hk | hd | hd)
          · exact absurd rfl hk
          · have hd2 : dst = none := hd
            subst hd2
            rw [hb]
            rfl
          · have hd2 : dst = some "" := hd
            subst hd2
            rw [hb]
            rfl
      case created =>
        have hb : st.ext = pyLower (suffixOfName (pathName (pyOrStr none src))) :=
          fsLog_ext exts now "created" src none st h
        exact ⟨hb, fun d hk => absurd hk (by simp), fun _ => hb⟩
      case modified =>
        have hb : st.ext = pyLower (suffixOfName (pathName (pyOrStr none src))) :=
          fsLog_ext exts now "modified" src none st h
        exact ⟨hb, fun d hk => absurd hk (by simp), fun _ => hb⟩
      case deleted =>
        have hb : st.ext = pyLower (suffixOfName (pathName (pyOrStr none src))) :=
          fsLog_ext exts now "deleted" src none st h
        exact ⟨hb, fun d hk => absurd hk (by simp), fun _ => hb⟩
    · subst hdir
      exact Option.noConfusion h
  · intro h1 h2
    cases hdir : dir
    · subst hdir
      cases k
      case moved => exact fsLog_dropped exts now "moved" src dst h1 h2
      case created => exact fsLog_dropped exts now "created" src none h1 h2
      case modified => exact fsLog_dropped exts now "modified" src none h1 h2
      case deleted => exact fsLog_dropped exts now "deleted" src none h1 h2
    · subst hdir
      rfl

/-- Witness for C2: the quantified parts applied at a concrete moved
notification with a truthy destination. -/
theorem claim_C2_witness :
    (⟨"b.PDF", "t0", ".pdf", "/home/u", "moved", "/home/u/a.txt",
        some "/home/u/b.PDF"⟩ : PendingEvent).ext =
      pyLower (suffixOfName (pathName "/home/u/b.PDF")) :=
  ((claim_C2_handler_ext [] "t0"
        ⟨EvKind.moved, false, "/home/u/a.txt", some "/home/u/b.PDF"⟩).2.1
      ⟨"b.PDF", "t0", ".pdf", "/home/u", "moved", "/home/u/a.txt",
        some "/home/u/b.PDF"⟩ rfl).2.1 "/home/u/b.PDF" rfl rfl (by decide)

/-- Claim C6: `stop` is total (no exception path) and idempotent:
stopping a never-started or already-stopped watcher does nothing;
stopping a running watcher stops the observer, joins it with a
five-second timeout, transitions to stopped; and a repeated stop is a
no-op. -/
theorem claim_C6_stop_idempotent (w : MultiWatcher) :
    (w.observer = false → MultiWatcher.stop w = (w, [])) ∧
    (w.observer = true →
      MultiWatcher.stop w =
        ({ w with observer := false }, [ObsAction.obsStop, ObsAction.join 5])) ∧
    (MultiWatcher.stop w).1.observer = false ∧
    MultiWatcher.stop (MultiWatcher.stop w).1 = ((MultiWatcher.stop w).1, []) := by
  unfold MultiWatcher.stop
  cases h : w.observer <;> simp [h]

/-- Witness for C6 at a concrete stopped and a concrete running watcher. -/
theorem claim_C6_witness :
    MultiWatcher.stop ⟨["q"], [], false⟩ = (⟨["q"], [], false⟩, []) ∧
      MultiWatcher.stop ⟨["q"], [], true⟩ =
        (⟨["q"], [], false⟩, [ObsAction.obsStop, ObsAction.join 5]) :=
  ⟨(claim_C6_stop_idempotent ⟨["q"], [], false⟩).1 rfl,
   (claim_C6_stop_idempotent ⟨["q"], [], true⟩).2.1 rfl⟩

theorem map_idx_enum (bs : List String) (g : Nat × String → MemoItem)
    (hg : ∀ p, (g p).idx = p.1 + 1) :
    (bs.enum.map g).map MemoItem.idx = List.range' 1 bs.length := by
  rw [List.map_map]
  have hc : MemoItem.idx ∘ g = (fun n => n + 1) ∘ Prod.fst := by
    funext p
    simp [Function.comp, hg]
  rw [hc, ← List.map_map, List.enum_map_fst, List.range'_eq_map_range]
  exact List.map_congr_left fun n _ => Nat.add_comm n 1

/-- Claim C7: `parse_memo` splits on blank-line boundaries, trims each
block, discards wholly-blank blocks, assigns 1-based sequential indices,
takes the first line cut to 120 characters as title and the remaining
lines joined by spaces cut to 500 as details; on `"A\n\nB\nC\n\n"` it
yields exactly the two stated items. -/
theorem claim_C7_parse_memo :
    parse_memo "A\n\nB\nC\n\n" = [⟨1, "A", ""⟩, ⟨2, "B", "C"⟩] ∧
    (∀ text : String,
      (parse_memo text).map MemoItem.idx = List.range' 1 (parse_memo text).length) ∧
    (∀ text : String, ∀ it ∈ parse_memo text,
      it.title.length ≤ 120 ∧ it.details.length ≤ 500 ∧
      ∃ b ∈ ((splitNNAux (stripChars text.data) []).map pyStrip).filter (fun b => b != ""),
        it.title = pyTake ((pySplitlines b).headD "") 120 ∧
        it.details = pyTake (joinWith " " (pySplitlines b).tail) 500) := by
  refine ⟨by decide, ?_, ?_⟩
  · intro text
    unfold parse_memo
    simp only [List.length_map, List.enum_length]
    exact map_idx_enum _ _ fun p => rfl
  · intro text it hit
    unfold parse_memo at hit
    obtain ⟨p, hp, rfl⟩ := List.mem_map.mp hit
    refine ⟨?_, ?_, p.2, ?_, rfl, rfl⟩
    · simp [pyTake]
    · simp [pyTake]
    · have : p.2 ∈ ((splitNNAux (stripChars text.data) []).map pyStrip).filter
          (fun b => b != "") := by
        rw [← List.enum_map_snd (((splitNNAux (stripChars text.data) []).map pyStrip).filter
          (fun b => b != ""))]
        exact List.mem_map_of_mem _ hp
      exact this

/-- Witness for the quantified parts of C7 at a concrete memo text. -/
theorem claim_C7_witness :
    (parse_memo "Hello\nWorld\n\nBye").map MemoItem.idx =
      List.range' 1 (parse_memo "Hello\nWorld\n\nBye").length :=
  claim_C7_parse_memo.2.1 "Hello\nWorld\n\nBye"

theorem skipWeekend_weekday_lt (d : PyDateTime) : weekday (skipWeekend d) < 5 := by
  induction d using skipWeekend.induct with
  | case1 d h ih =>
    rw [skipWeekend, if_pos h]
    exact ih
  | case2 d h =>
    rw [skipWeekend, if_neg h]
    omega

theorem skipWeekend_days_le (d : PyDateTime) : d.days ≤ (skipWeekend d).days := by
  induction d using skipWeekend.induct with
  | case1 d h ih =>
    rw [skipWeekend, if_pos h]
    refine le_trans ?_ ih
    simp [addDays]
  | case2 d h =>
    rw [skipWeekend, if_neg h]

/-- Claim C10: for a valid hour of day, `next_business_day` returns a
datetime on a weekday (Monday–Friday), on a calendar day strictly after
`dt`'s day, with the hour set to `hour` and minute, second and
microsecond zero. -/
theorem claim_C10_next_business_day (dt : PyDateTime) (hour : Nat) (h : hour < 24) :
    ∃ r, next_business_day dt hour = some r ∧ weekday r < 5 ∧ dt.days < r.days ∧
      r.hour = hour ∧ r.minute = 0 ∧ r.second = 0 ∧ r.microsecond = 0 := by
  unfold next_business_day
  rw [if_neg (by omega)]
  refine ⟨_, rfl, ?_, ?_, rfl, rfl, rfl, rfl⟩
  · exact skipWeekend_weekday_lt (addDays dt 1)
  · have h2 : dt.days + 1 ≤ (skipWeekend (addDays dt 1)).days :=
      skipWeekend_days_le (addDays dt 1)
    show dt.days < (skipWeekend (addDays dt 1)).days
    omega

/-- Witness for C10 at a concrete datetime and hour. -/
theorem claim_C10_witness :
    9 < 24 ∧
      ∃ r, next_business_day ⟨19844, 13, 45, 10, 123⟩ 9 = some r ∧
        weekday r < 5 ∧ (19844 : Int) < r.days ∧ r.hour = 9 ∧ r.minute = 0 ∧
        r.second = 0 ∧ r.microsecond = 0 :=
  ⟨by omega, claim_C10_next_business_day ⟨19844, 13, 45, 10, 123⟩ 9 (by omega)⟩

end FWL
